import Mathlib

/-!
Verification development for the osintrace repository (Go).

The embedding below translates the pipeline engine (`core/pipeline.go`),
the CLI `run` command (`cmd/osintrace/main.go`) and the module installer
(`installer/installer.go`) into Lean.  Filesystem reads, subprocess
execution, `git`/`go build` invocations and the interactive prompt are
modelled as explicit parameters (oracles), so every function is a pure,
executable Lean definition whose control flow mirrors the Go source
line by line.
-/

namespace Osintrace

/-! ## Go path handling: `filepath.Clean` and `filepath.Join` (unix rules)

`filepath.Join(elems...)` in Go joins the elements from the first
non-empty one with `/` and applies `Clean`.  `Clean` resolves `.` and
`..` lexically: `..` pops a previous component, escapes upward in a
relative path, and is dropped at the root of an absolute path. -/

/-- Split a character list on `/` separators, keeping empty components. -/
def splitSlashAux (cur : List Char) : List Char → List (List Char)
  | [] => [cur.reverse]
  | c :: rest =>
    if c = '/' then cur.reverse :: splitSlashAux [] rest
    else splitSlashAux (c :: cur) rest

/-- Components of a path string, split on `/`. -/
def pathComponents (p : String) : List String :=
  (splitSlashAux [] p.data).map List.asString

/-- One step of Go's `Clean` element loop.  `acc` holds the output
components in reverse order. -/
def cleanStep (rooted : Bool) (acc : List String) (c : String) : List String :=
  if c = "" ∨ c = "." then acc
  else if c = ".." then
    match acc with
    | [] => if rooted then [] else [".."]
    | a :: rest => if a = ".." then c :: a :: rest else rest
  else c :: acc

/-- The cleaned component list of a path (Go `filepath.Clean`'s loop). -/
def cleanParts (rooted : Bool) (cs : List String) : List String :=
  (cs.foldl (cleanStep rooted) []).reverse

/-- Go `filepath.Clean` for `/`-separated paths. -/
def goClean (p : String) : String :=
  if p = "" then "."
  else
    let rooted : Bool := p.data.head? == some '/'
    match cleanParts rooted (pathComponents p) with
    | [] => if rooted then "/" else "."
    | parts => (if rooted then "/" else "") ++ String.intercalate "/" parts

/-- Go `filepath.Join`: drop leading empty elements, join with `/`,
then `Clean`; all-empty input yields `""`. -/
def goJoin (elems : List String) : String :=
  match elems.dropWhile (· = "") with
  | [] => ""
  | ne => goClean (String.intercalate "/" ne)

/-! ## Go string comparison

Go compares strings byte-wise; on UTF-8 data byte order coincides with
code-point order, so the comparison is embedded on `List Char`. -/

/-- Lexicographic less-or-equal on character lists (Go `a <= b` on
strings). -/
def lexLe : List Char → List Char → Bool
  | [], _ => true
  | _ :: _, [] => false
  | x :: xs, y :: ys =>
    if x.toNat < y.toNat then true
    else if y.toNat < x.toNat then false
    else lexLe xs ys

/-- Go string comparison `a <= b`. -/
def strLe (a b : String) : Bool := lexLe a.data b.data

/-! ## JSON-like values

`Step.Config` is Go's `map[string]any`; config values and the stdin
payload are JSON-like values.  Go's `encoding/json` marshals a map with
its keys in ascending (byte-wise lexicographic) order. -/

/-- JSON-like values (Go `any` as produced by YAML/JSON decoding).
Numbers are modelled as integers; nothing in the claims involves
floating point. -/
inductive Json where
  | null
  | bool (b : Bool)
  | num (n : Int)
  | str (s : String)
  | arr (xs : List Json)
  | obj (fields : List (String × Json))
deriving Repr

/-- Insert one field into a key-ascending field list (one step of the
key sort Go's `json.Marshal` applies to a map). -/
def insertField (f : String × Json) : List (String × Json) → List (String × Json)
  | [] => [f]
  | g :: gs => if strLe f.1 g.1 then f :: g :: gs else g :: insertField f gs

/-- Sort an association list by key, ascending — the field order
`json.Marshal` emits for a Go map. -/
def sortFields (fs : List (String × Json)) : List (String × Json) :=
  fs.foldr insertField []

/-! ## Pipeline data model (`core/pipeline.go`) -/

/-- The parsed `input:` field of a step.  The Go field has type `any`:
`nil`, a literal string, or a mapping that is re-marshalled into
`artifactRef{From, Artifact}` (absent keys decode to `""`). -/
inductive RawInput where
  | null
  | lit (s : String)
  | ref (fromStep artifact : String)
deriving Repr

/-- One pipeline step (`core.Step`). -/
structure Step where
  name : String
  input : RawInput
  config : List (String × Json)
deriving Repr

/-- A parsed pipeline (`core.Pipeline`). -/
structure Pipeline where
  modules : List Step
deriving Repr

/-- What reading and JSON-decoding a step's `output.json` yields:
the file is absent, malformed, or an `outputIndex` whose `artifacts`
mapping sends artifact names to `{path, type}` entries. -/
inductive FileState where
  | absent
  | malformed
  | index (artifacts : List (String × String × String))
deriving Repr

/-- The run directory's filesystem, as the resolver sees it: a map from
path to the state of the `output.json` file there. -/
def Fs : Type := String → FileState

/-- Errors produced by `resolveInput`, one per `fmt.Errorf` site. -/
inductive ResolveErr where
  | invalidRef
  | missingIndex (fromStep : String)
  | invalidIndex (fromStep : String)
  | artifactNotFound (artifact fromStep : String)
deriving Repr, DecidableEq

/-- Embedding of `core.resolveInput(runDir, raw)`: `nil` resolves to
`""`; a literal string resolves to itself; an artifact reference is
validated, then `runDir/from/output.json` is read, parsed, and the
artifact looked up, producing `filepath.Join(runDir, from, path)`. -/
def resolveInput (fs : Fs) (runDir : String) (raw : RawInput) :
    Except ResolveErr String :=
  match raw with
  | .null => .ok ""
  | .lit v => .ok v
  | .ref f a =>
    if f = "" ∨ a = "" then .error .invalidRef
    else
      match fs (goJoin [runDir, f, "output.json"]) with
      | .absent => .error (.missingIndex f)
      | .malformed => .error (.invalidIndex f)
      | .index arts =>
        match arts.lookup a with
        | none => .error (.artifactNotFound a f)
        | some art => .ok (goJoin [runDir, f, art.1])

/-! ## Step execution (`core.runModule`, `core.Run`) -/

/-- The observable invocation of a module subprocess: the binary path
handed to `exec.CommandContext`, the JSON payload written to stdin, and
the two injected environment variables. -/
structure Invocation where
  binPath : String
  stdin : Json
  envRunDir : String
  envStepDir : String
deriving Repr

/-- The stdin payload of `core.runModule`: Go builds
`map[string]any{"input": input, "config": config}` and `json.Marshal`
emits it with keys sorted. -/
def payloadJson (input : String) (config : List (String × Json)) : Json :=
  .obj (sortFields [("input", .str input), ("config", .obj config)])

/-- Embedding of `core.runModule`: the subprocess invocation it
performs (its exit status is supplied by the world oracle in `runSteps`). -/
def runModule (binPath input : String) (config : List (String × Json))
    (runDir stepDir : String) : Invocation :=
  { binPath := binPath
    stdin := payloadJson input config
    envRunDir := runDir
    envStepDir := stepDir }

/-- Outcome of one module subprocess: exit code 0 with the step's
writes applied to the filesystem, or a nonzero exit / launch failure. -/
inductive ExecOutcome where
  | ok (fs' : Fs)
  | failed (msg : String)

/-- Module behaviour oracle: what the binary at the invocation's path
does, given the current run-directory filesystem. -/
def World : Type := Invocation → Fs → ExecOutcome

/-- Errors returned by `core.Run`, wrapping the failing step's name
(`fmt.Errorf("[%s] input resolution failed: %w", ...)` and
`fmt.Errorf("[%s] %w", ...)`). -/
inductive RunError where
  | resolutionFailed (step : String) (cause : ResolveErr)
  | stepFailed (step : String) (cause : String)
deriving Repr, DecidableEq

/-- Embedding of the step loop of `core.Run`: walk the steps in
declaration order; resolve each input, invoke the module, stop at the
first failure.  Returns the subprocess invocations performed in order,
the final filesystem, and the error if any.  (`os.MkdirAll(stepDir)` is
modelled as succeeding; directory creation does not affect the
`output.json` map.) -/
def runSteps (world : World) (binDir runDir : String) :
    Fs → List Step → List Invocation × Fs × Option RunError
  | fs, [] => ([], fs, none)
  | fs, s :: rest =>
    match resolveInput fs runDir s.input with
    | .error e => ([], fs, some (.resolutionFailed s.name e))
    | .ok input =>
      let inv := runModule (goJoin [binDir, s.name]) input s.config runDir
        (goJoin [runDir, s.name])
      match world inv fs with
      | .failed msg => ([inv], fs, some (.stepFailed s.name msg))
      | .ok fs' =>
        let r := runSteps world binDir runDir fs' rest
        (inv :: r.1, r.2)

/-- Embedding of `core.Run`: a fresh temp run directory (no
`output.json` present anywhere) and the step loop. -/
def Run (world : World) (binDir runDir : String) (p : Pipeline) :
    List Invocation × Fs × Option RunError :=
  runSteps world binDir runDir (fun _ => .absent) p.modules

/-! ## Pipeline loading (`core.Load`) -/

/-- What reading and YAML-decoding the pipeline file yields: the file
is unreadable, fails to parse, or decodes into a `Pipeline`. -/
inductive YamlDoc where
  | unreadable
  | malformed
  | parsed (p : Pipeline)

/-- Errors of `core.Load`: the `os.ReadFile` error, the
`yaml.Unmarshal` error, or `"pipeline has no modules"`. -/
inductive LoadErr where
  | readFailed
  | parseFailed
  | noModules
deriving Repr, DecidableEq

/-- Embedding of `core.Load`: read the file, YAML-decode it, reject an
empty module list, and return the decoded pipeline as is — the decoded
steps (including every `config` value) are returned without any
transformation. -/
def Load (doc : YamlDoc) : Except LoadErr Pipeline :=
  match doc with
  | .unreadable => .error .readFailed
  | .malformed => .error .parseFailed
  | .parsed p => if p.modules.isEmpty then .error .noModules else .ok p

mutual

/-- Scanner for `specExpandEnv`: copy characters, entering
`expandName` at each `$\x7b`. -/
def expandGo (env : String → Option String) : List Char → List Char
  | [] => []
  | c :: rest =>
    if c = '$' then
      match rest with
      | [] => [c]
      | b :: rest2 =>
        if b = '\x7b' then expandName env [] rest2
        else c :: expandGo env (b :: rest2)
    else c :: expandGo env rest

/-- Name collector for `specExpandEnv`: gather characters up to the
closing brace, substitute the environment value (empty string when the
variable is unset), and resume scanning; an unterminated placeholder is
kept literally. -/
def expandName (env : String → Option String) (acc : List Char) :
    List Char → List Char
  | [] => '$' :: '\x7b' :: acc.reverse
  | c :: rest =>
    if c = '\x7d' then
      ((env acc.reverse.asString).getD "").data ++ expandGo env rest
    else expandName env (c :: acc) rest

end

/-- Expansion of `$\x7bNAME\x7d` placeholders against an environment,
written to the spec's words for comparison with `Load` (spec §4.1:
placeholders inside config values "are expanded against the process
environment at load time; an unresolved variable expands to an empty
string").  The Go source contains no such expansion; this definition
exists only to state the divergence. -/
def specExpandEnv (env : String → Option String) (s : String) : String :=
  (expandGo env s.data).asString

/-! ## Installer data model (`installer/installer.go`) -/

/-- A parsed `manifest.yaml` (`installer.Manifest`). -/
structure Manifest where
  name : String
  version : String
  description : String
  author : String
  official : Bool
  verified : Bool
  entityTypes : List String
  repo : String
deriving Repr, DecidableEq

/-- One persisted registry row (`installer.RegistryEntry`). -/
structure RegistryEntry where
  binPath : String
  version : String
  author : String
  official : Bool
  verified : Bool
deriving Repr, DecidableEq

/-- The registry (`installer.Registry`, Go `map[string]RegistryEntry`),
as an association list with unique keys. -/
def Registry : Type := List (String × RegistryEntry)

/-- Go map assignment `reg[name] = e`: overwrite the existing key or
append. -/
def regInsert (name : String) (e : RegistryEntry) : Registry → Registry
  | [] => [(name, e)]
  | (n, e') :: rest =>
    if n = name then (name, e) :: rest else (n, e') :: regInsert name e rest

/-- Go map lookup `reg[name]`. -/
def regLookup (name : String) (reg : Registry) : Option RegistryEntry :=
  List.lookup name reg

/-- Embedding of `installer.BinDir()`:
`filepath.Join(home, ".opentrace", "bin")`. -/
def BinDirOf (home : String) : String :=
  goJoin [home, ".opentrace", "bin"]

/-- What reading `manifest.yaml` yields: absent/unreadable file,
invalid YAML, or a decoded `Manifest`. -/
inductive ManifestFile where
  | absent
  | malformed
  | parsed (m : Manifest)

/-- Errors of `installer.readManifest`, one per `fmt.Errorf` site. -/
inductive ManifestErr where
  | unreadable
  | invalidYaml
  | missingFields
deriving Repr, DecidableEq

/-- Embedding of `installer.readManifest`: read the file, YAML-decode
it, and require the `name` and `version` fields to be nonempty. -/
def readManifest (file : ManifestFile) : Except ManifestErr Manifest :=
  match file with
  | .absent => .error .unreadable
  | .malformed => .error .invalidYaml
  | .parsed m =>
    if m.name = "" ∨ m.version = "" then .error .missingFields else .ok m

/-- A directory entry as returned by `os.ReadDir` (name and the
is-directory bit). -/
structure DirEntry where
  name : String
  isDir : Bool
deriving Repr, DecidableEq

/-- Insert one entry into a filename-sorted entry list. -/
def insertEntry (e : DirEntry) : List DirEntry → List DirEntry
  | [] => [e]
  | f :: fs =>
    if strLe e.name f.name then e :: f :: fs else f :: insertEntry e fs

/-- `os.ReadDir` returns the directory's entries sorted by filename;
the unsorted `entries` parameter stands for the directory's contents. -/
def osReadDir (entries : List DirEntry) : List DirEntry :=
  entries.foldr insertEntry []

/-- Embedding of `installer.latestVersion`: list the module directory,
keep the subdirectory names in order, fail if there are none, else take
the last one. -/
def latestVersion (entries : List DirEntry) : Except Unit String :=
  match (((osReadDir entries).filter (·.isDir)).map (·.name)).getLast? with
  | none => .error ()
  | some v => .ok v

/-! ## Installer operations (`installer/installer.go`)

`git clone`, `git sparse-checkout`, the `os.Stat` existence check, the
directory listing, the manifest file, the interactive answer and the
`go build` outcome are supplied as oracle fields, one per external
effect the Go code performs. -/

/-- Result of `installer.Install` and its helpers, one constructor per
`return` site (`.ok` is Go's `nil`, which is also what a declined
trust prompt returns). -/
inductive InstallResult where
  | ok
  | cloneFailed (out : String)
  | sparseFailed (out : String)
  | notFound (name : String)
  | noVersions (name : String)
  | manifestFailed (e : ManifestErr)
  | buildFailed (out : String)
deriving Repr, DecidableEq

/-- The durable state an install run can touch: the registry document
and the module binary written by a successful `go build`. -/
structure InstallState where
  registry : Registry
  binWritten : Option String

/-- Embedding of `installer.build`: compute the platform binary name,
run `go build`, and only on success write the registry entry (keyed by
`name`, recording `manifest.Version`, not the `version` argument). -/
def build (name version : String) (manifest : Manifest) (official : Bool)
    (goos home : String) (buildOk : Bool) (buildOut : String)
    (reg : Registry) : InstallResult × InstallState :=
  let binName := if goos = "windows" then name ++ ".exe" else name
  let binPath := goJoin [BinDirOf home, binName]
  if buildOk then
    let entry : RegistryEntry :=
      { binPath := binPath
        version := manifest.version
        author := manifest.author
        official := official
        verified := manifest.verified }
    (.ok, { registry := regInsert name entry reg, binWritten := some binPath })
  else
    (.buildFailed buildOut, { registry := reg, binWritten := none })

/-- The last `/`-separated segment of a repository locator
(`arg[strings.LastIndex(arg, "/")+1:]`). -/
def lastSegment (arg : String) : String :=
  ((splitSlashAux [] arg.data).map List.asString).getLastD arg

/-- Go `strings.TrimPrefix`. -/
def trimPrefixStr (pre s : String) : String :=
  if pre.data.isPrefixOf s.data then (s.data.drop pre.data.length).asString
  else s

/-- Embedding of `installer.isExternalRepo`: an argument containing a
`/` is a repository locator. -/
def isExternalRepo (arg : String) : Bool :=
  arg.data.contains '/'

/-- Oracle for the external effects of `installer.installExternal`. -/
structure ExtEnv where
  cloneOk : Bool
  cloneOut : String
  manifestFile : ManifestFile
  answer : String
  buildOk : Bool
  buildOut : String

/-- Embedding of `installer.installExternal`: derive a fallback name
from the locator's last segment, clone, read the root manifest, prefer
the manifest's `name`, prompt when the manifest is not verified (any
answer other than `"y"` aborts with `nil` and no further action), then
build and register. -/
def installExternal (arg : String) (env : ExtEnv) (goos home : String)
    (reg : Registry) : InstallResult × InstallState :=
  let repoName := lastSegment arg
  let fallback := trimPrefixStr "opentrace-" repoName
  if env.cloneOk then
    match readManifest env.manifestFile with
    | .error e => (.manifestFailed e, { registry := reg, binWritten := none })
    | .ok m =>
      let name := if m.name ≠ "" then m.name else fallback
      if m.verified = false ∧ env.answer ≠ "y" then
        (.ok, { registry := reg, binWritten := none })
      else
        build name m.version m false goos home env.buildOk env.buildOut reg
  else
    (.cloneFailed env.cloneOut, { registry := reg, binWritten := none })

/-- Oracle for the external effects of `installer.installOfficial`. -/
structure OffEnv where
  cloneOk : Bool
  cloneOut : String
  sparseOk : Bool
  sparseOut : String
  moduleDirExists : Bool
  dirEntries : List DirEntry
  manifestFile : ManifestFile
  buildOk : Bool
  buildOut : String

/-- Embedding of `installer.installOfficial`: sparse-clone the
canonical modules repository, check the module subtree exists, pick the
latest version directory, read that version's manifest, and build with
`official = true` (no trust prompt). -/
def installOfficial (name : String) (env : OffEnv) (goos home : String)
    (reg : Registry) : InstallResult × InstallState :=
  if env.cloneOk then
    if env.sparseOk then
      if env.moduleDirExists then
        match latestVersion env.dirEntries with
        | .error _ =>
          (.noVersions name, { registry := reg, binWritten := none })
        | .ok version =>
          match readManifest env.manifestFile with
          | .error e =>
            (.manifestFailed e, { registry := reg, binWritten := none })
          | .ok m =>
            build name version m true goos home env.buildOk env.buildOut reg
      else (.notFound name, { registry := reg, binWritten := none })
    else (.sparseFailed env.sparseOut, { registry := reg, binWritten := none })
  else (.cloneFailed env.cloneOut, { registry := reg, binWritten := none })

/-- Embedding of `installer.Install`: create the bin directory
(modelled as succeeding) and dispatch on the argument's shape. -/
def Install (arg : String) (offEnv : OffEnv) (extEnv : ExtEnv)
    (goos home : String) (reg : Registry) : InstallResult × InstallState :=
  if isExternalRepo arg then installExternal arg extEnv goos home reg
  else installOfficial arg offEnv goos home reg

/-! ## The CLI `run` command (`cmd/osintrace/main.go`) -/

/-- First step of the pipeline whose name has no registry entry, in
declaration order (the loop of `runCmd`). -/
def checkInstalled (reg : Registry) : List Step → Option String
  | [] => none
  | s :: rest =>
    if (regLookup s.name reg).isSome then checkInstalled reg rest
    else some s.name

/-- Observable outcome of the CLI `run` command. -/
inductive CmdResult where
  | loadFailed (e : LoadErr)
  | notInstalled (name : String)
  | ran (trace : List Invocation) (result : Option RunError)

/-- Embedding of `runCmd`'s `RunE`: load the pipeline, verify every
referenced module is registered, and only then call `core.Run` with
`installer.BinDir()` — `core.Run` is what creates the run directory and
spawns subprocesses, so a `.notInstalled` outcome happens before
either. -/
def runCmd (doc : YamlDoc) (reg : Registry) (world : World)
    (home runDir : String) : CmdResult :=
  match Load doc with
  | .error e => .loadFailed e
  | .ok p =>
    match checkInstalled reg p.modules with
    | some name => .notInstalled name
    | none =>
      let r := Run world (BinDirOf home) runDir p
      .ran r.1 r.2.2

/-! ## Theorems -/

/-- A one-step pipeline whose step config holds the env-var placeholder
from the repository README (`token: "$\x7bIPINFO_TOKEN\x7d"`). -/
def ipPipeline : Pipeline :=
  { modules :=
      [{ name := "ip_locator"
         input := .lit "8.8.8.8"
         config := [("token", .str "$\x7bIPINFO_TOKEN\x7d")] }] }

/-- A process environment in which `IPINFO_TOKEN` is set. -/
def ipEnv : String → Option String :=
  fun n => if n = "IPINFO_TOKEN" then some "secret" else none

/-- C1: `core.Load` performs no environment-variable expansion at all:
at the failing input — a pipeline whose step config holds the
placeholder `$\x7bIPINFO_TOKEN\x7d` while the environment sets
`IPINFO_TOKEN=secret` — `Load` accepts the document and hands back the
config value verbatim, whereas the documented behaviour
(`specExpandEnv`, written to the spec's and README's words) yields
`"secret"`, a different string. -/
theorem load_does_not_expand_env_placeholders :
    Load (.parsed ipPipeline) = .ok ipPipeline ∧
    (ipPipeline.modules.head?.map (fun s => s.config.lookup "token")) =
      some (some (.str "$\x7bIPINFO_TOKEN\x7d")) ∧
    specExpandEnv ipEnv "$\x7bIPINFO_TOKEN\x7d" = "secret" ∧
    ("$\x7bIPINFO_TOKEN\x7d" : String) ≠ "secret" :=
  ⟨rfl, rfl, rfl, by decide⟩

/-- C2: resolving an artifact reference `{from := A, artifact := X}`
reads `runDir/A/output.json` and (i) returns the join of `runDir`, `A`
and the declared relative path when the index declares `X`; (ii) fails
with an artifact-not-found error when the index parses but omits `X`;
(iii) fails with a missing-index error when the file is absent;
(iv) fails with an invalid-index error when it is malformed JSON. -/
theorem resolveInput_artifact_cases (fs : Fs) (runDir A X : String)
    (hA : A ≠ "") (hX : X ≠ "") :
    (∀ arts p t, fs (goJoin [runDir, A, "output.json"]) = .index arts →
        arts.lookup X = some (p, t) →
        resolveInput fs runDir (.ref A X) = .ok (goJoin [runDir, A, p])) ∧
    (∀ arts, fs (goJoin [runDir, A, "output.json"]) = .index arts →
        arts.lookup X = none →
        resolveInput fs runDir (.ref A X) =
          .error (.artifactNotFound X A)) ∧
    (fs (goJoin [runDir, A, "output.json"]) = .absent →
        resolveInput fs runDir (.ref A X) = .error (.missingIndex A)) ∧
    (fs (goJoin [runDir, A, "output.json"]) = .malformed →
        resolveInput fs runDir (.ref A X) = .error (.invalidIndex A)) := by
  refine ⟨?_, ?_, ?_, ?_⟩
  · intro arts p t hidx hlook
    simp [resolveInput, hA, hX, hidx, hlook]
  · intro arts hidx hlook
    simp [resolveInput, hA, hX, hidx, hlook]
  · intro hidx
    simp [resolveInput, hA, hX, hidx]
  · intro hidx
    simp [resolveInput, hA, hX, hidx]

/-- A run directory in which step `a` declared artifact `x` at relative
path `out.json`. -/
def fsDeclared : Fs := fun path =>
  if path = "/run/a/output.json" then
    .index [("x", ("out.json", "application/json"))]
  else .absent

/-- Witness for C2: concrete successful resolution. -/
theorem resolveInput_artifact_cases_witness :
    resolveInput fsDeclared "/run" (.ref "a" "x") = .ok "/run/a/out.json" :=
  (resolveInput_artifact_cases fsDeclared "/run" "a" "x" (by decide)
      (by decide)).1
    [("x", ("out.json", "application/json"))] "out.json" "application/json"
    (by rfl) (by rfl)

/-- C5: the stdin payload `core.runModule` writes is exactly the JSON
object with the two fields `"input"` (the resolved input string) and
`"config"` (the step's config object) — `json.Marshal` emits a Go map
with its keys sorted, hence `config` before `input`. -/
theorem runModule_stdin_payload (binPath input : String)
    (config : List (String × Json)) (runDir stepDir : String) :
    ∃ fields,
      (runModule binPath input config runDir stepDir).stdin = .obj fields ∧
      fields.lookup "input" = some (.str input) ∧
      fields.lookup "config" = some (.obj config) ∧
      fields.map Prod.fst = ["config", "input"] :=
  ⟨[("config", .obj config), ("input", .str input)], rfl, rfl, rfl, rfl⟩

/-- Splitting lemma for the step loop: when a prefix of the step list
completes without error, running the whole list runs the prefix and
continues from its final filesystem. -/
theorem runSteps_append (world : World) (binDir runDir : String)
    (fs : Fs) (pre post : List Step)
    (h : (runSteps world binDir runDir fs pre).2.2 = none) :
    runSteps world binDir runDir fs (pre ++ post) =
      ((runSteps world binDir runDir fs pre).1 ++
        (runSteps world binDir runDir
          (runSteps world binDir runDir fs pre).2.1 post).1,
       (runSteps world binDir runDir
          (runSteps world binDir runDir fs pre).2.1 post).2) := by
  induction pre generalizing fs with
  | nil => simp [runSteps]
  | cons s rest ih =>
    simp only [List.cons_append, runSteps] at h ⊢
    cases hres : resolveInput fs runDir s.input with
    | error e => rw [hres] at h; simp at h
    | ok input =>
      rw [hres] at h
      dsimp only at h ⊢
      cases hw : world (runModule (goJoin [binDir, s.name]) input s.config
          runDir (goJoin [runDir, s.name])) fs with
      | failed msg => rw [hw] at h; simp at h
      | ok fs' =>
        rw [hw] at h
        dsimp only at h ⊢
        simp [ih fs' h]

/-- C3: steps execute in declaration order and the run aborts on the
first failing step.  With an error-free prefix `pre`, if step `s` fails
input resolution the run stops with an error wrapping `s.name` and the
resolution cause, performing only `pre`'s invocations; if `s`'s
subprocess fails, the run stops with an error wrapping `s.name` and the
execution cause, performing `pre`'s invocations plus `s`'s — in both
cases nothing of the arbitrary suffix `post` is attempted. -/
theorem run_aborts_on_first_failing_step (world : World)
    (binDir runDir : String) (p : Pipeline) (pre post : List Step) (s : Step)
    (hp : p.modules = pre ++ s :: post)
    (hpre : (runSteps world binDir runDir (fun _ => .absent) pre).2.2 = none) :
    (∀ e, resolveInput (runSteps world binDir runDir (fun _ => .absent) pre).2.1
        runDir s.input = .error e →
      Run world binDir runDir p =
        ((runSteps world binDir runDir (fun _ => .absent) pre).1,
         (runSteps world binDir runDir (fun _ => .absent) pre).2.1,
         some (.resolutionFailed s.name e))) ∧
    (∀ input msg,
      resolveInput (runSteps world binDir runDir (fun _ => .absent) pre).2.1
          runDir s.input = .ok input →
      world (runModule (goJoin [binDir, s.name]) input s.config runDir
          (goJoin [runDir, s.name]))
        (runSteps world binDir runDir (fun _ => .absent) pre).2.1 =
          .failed msg →
      Run world binDir runDir p =
        ((runSteps world binDir runDir (fun _ => .absent) pre).1 ++
          [runModule (goJoin [binDir, s.name]) input s.config runDir
            (goJoin [runDir, s.name])],
         (runSteps world binDir runDir (fun _ => .absent) pre).2.1,
         some (.stepFailed s.name msg))) := by
  constructor
  · intro e he
    unfold Run
    rw [hp, runSteps_append _ _ _ _ _ _ hpre]
    simp [runSteps, he]
  · intro input msg hin hw
    unfold Run
    rw [hp, runSteps_append _ _ _ _ _ _ hpre]
    simp [runSteps, hin, hw]

def okWorld : World := fun _ fs => .ok fs

def stepA : Step := { name := "a", input := .lit "8.8.8.8", config := [] }

def stepB : Step := { name := "b", input := .ref "nope" "x", config := [] }

def stepC : Step := { name := "c", input := .null, config := [] }

def pABC : Pipeline := ⟨[stepA, stepB, stepC]⟩

/-- Witness for C3: in the pipeline `[a, b, c]`, step `b`'s artifact
reference has no producer, so the run ends with an error naming `b` and
step `c` is never invoked. -/
theorem run_aborts_witness :
    Run okWorld "/bins" "/run" pABC =
      ((runSteps okWorld "/bins" "/run" (fun _ => .absent) [stepA]).1,
       (runSteps okWorld "/bins" "/run" (fun _ => .absent) [stepA]).2.1,
       some (.resolutionFailed "b" (.missingIndex "nope"))) :=
  (run_aborts_on_first_failing_step okWorld "/bins" "/run" pABC [stepA] [stepC]
      stepB rfl rfl).1 (.missingIndex "nope") rfl

/-- The `runCmd` registry loop finds some step (the first) whose name
is unregistered whenever one exists. -/
theorem checkInstalled_finds_missing (reg : Registry) (l : List Step)
    (s : Step) (hs : s ∈ l) (hmiss : regLookup s.name reg = none) :
    ∃ t ∈ l, regLookup t.name reg = none ∧
      checkInstalled reg l = some t.name := by
  induction l with
  | nil => cases hs
  | cons a rest ih =>
    by_cases ha : (regLookup a.name reg).isSome
    · have hsr : s ∈ rest := by
        cases hs with
        | head => simp [hmiss] at ha
        | tail _ h => exact h
      obtain ⟨t, ht, hmt, hct⟩ := ih hsr
      exact ⟨t, List.mem_cons_of_mem _ ht, hmt,
        by simp [checkInstalled, ha, hct]⟩
    · refine ⟨a, List.mem_cons_self _ _, ?_, ?_⟩
      · exact Option.not_isSome_iff_eq_none.mp ha
      · simp [checkInstalled, ha]

/-- C4: when any step of a loaded pipeline names a module with no
registry entry, the `run` command stops with a not-installed error
naming an unregistered step, and never reaches `core.Run` — the
function that creates the run directory and spawns subprocesses, so
neither happens and no step executes.  (The `.ran` outcome is the only
one that invokes `core.Run`, and reaching it requires every step's
name to be registered.) -/
theorem runCmd_rejects_uninstalled_module (doc : YamlDoc) (reg : Registry)
    (world : World) (home runDir : String) (p : Pipeline)
    (hload : Load doc = .ok p) (s : Step) (hs : s ∈ p.modules)
    (hmiss : regLookup s.name reg = none) :
    (∃ t ∈ p.modules, regLookup t.name reg = none ∧
      runCmd doc reg world home runDir = .notInstalled t.name) ∧
    (∀ tr res, runCmd doc reg world home runDir ≠ .ran tr res) := by
  obtain ⟨t, ht, hmt, hct⟩ := checkInstalled_finds_missing reg p.modules s hs hmiss
  refine ⟨⟨t, ht, hmt, ?_⟩, ?_⟩
  · simp [runCmd, hload, hct]
  · intro tr res
    simp [runCmd, hload, hct]

def ghostPipeline : Pipeline := ⟨[{ name := "ghost", input := .null, config := [] }]⟩

/-- Witness for C4: a pipeline referencing an uninstalled module
`ghost` against an empty registry. -/
theorem runCmd_rejects_witness :
    (∃ t ∈ ghostPipeline.modules, regLookup t.name ([] : Registry) = none ∧
      runCmd (.parsed ghostPipeline) ([] : Registry) okWorld "/home/u" "/run" =
        .notInstalled t.name) ∧
    (∀ tr res, runCmd (.parsed ghostPipeline) ([] : Registry) okWorld "/home/u" "/run" ≠
      .ran tr res) :=
  runCmd_rejects_uninstalled_module (.parsed ghostPipeline) ([] : Registry)
    okWorld "/home/u" "/run" ghostPipeline rfl
    { name := "ghost", input := .null, config := [] }
    (by simp [ghostPipeline]) rfl

/-- C6: installing an external module whose manifest has
`verified: false` prompts for confirmation, and any answer other than
`"y"` makes `installExternal` return `nil` (no error) before the build:
the registry is unchanged and no binary file is produced. -/
theorem installExternal_declined_is_noop (arg : String) (env : ExtEnv)
    (goos home : String) (reg : Registry) (m : Manifest)
    (hclone : env.cloneOk = true)
    (hman : readManifest env.manifestFile = .ok m)
    (hver : m.verified = false) (hans : env.answer ≠ "y") :
    installExternal arg env goos home reg =
      (.ok, { registry := reg, binWritten := none }) := by
  simp [installExternal, hclone, hman, hver, hans]

def faceManifest : Manifest :=
  { name := "face_osint", version := "0.1.0", description := "", author := "alice",
    official := false, verified := false, entityTypes := [], repo := "" }

def declineEnv : ExtEnv :=
  { cloneOk := true, cloneOut := "", manifestFile := .parsed faceManifest,
    answer := "n", buildOk := true, buildOut := "" }

/-- Witness for C6: declining the prompt for an unverified community
module leaves an empty registry empty and writes no binary. -/
theorem installExternal_declined_witness :
    installExternal "github.com/alice/opentrace-face-osint" declineEnv
      "linux" "/home/u" ([] : Registry) =
      (.ok, { registry := ([] : Registry), binWritten := none }) :=
  installExternal_declined_is_noop "github.com/alice/opentrace-face-osint"
    declineEnv "linux" "/home/u" ([] : Registry) faceManifest rfl rfl rfl
    (by decide)

/-- `installer.build` leaves the registry untouched when `go build`
fails: registration is its last action. -/
theorem build_registry_on_failure (name version : String) (m : Manifest)
    (official : Bool) (goos home : String) (buildOk : Bool) (buildOut : String)
    (reg : Registry)
    (h : (build name version m official goos home buildOk buildOut reg).1 ≠ .ok) :
    (build name version m official goos home buildOk buildOut reg).2.registry =
      reg := by
  unfold build at h ⊢
  cases buildOk <;> simp_all

/-- Every failing return of `installExternal` happens before the
registry write. -/
theorem installExternal_registry_on_failure (arg : String) (env : ExtEnv)
    (goos home : String) (reg : Registry)
    (h : (installExternal arg env goos home reg).1 ≠ .ok) :
    (installExternal arg env goos home reg).2.registry = reg := by
  obtain ⟨cOk, cOut, mf, ans, bOk, bOut⟩ := env
  unfold installExternal at h ⊢
  by_cases hc : cOk = true
  · rw [if_pos hc] at h ⊢
    cases hman : readManifest mf with
    | error e => rfl
    | ok m =>
      rw [hman] at h
      dsimp only at h ⊢
      by_cases hcond : m.verified = false ∧ ans ≠ "y"
      · rw [if_pos hcond]
      · rw [if_neg hcond] at h ⊢
        exact build_registry_on_failure _ _ _ _ _ _ _ _ _ h
  · rw [if_neg hc] at h ⊢

/-- Every failing return of `installOfficial` happens before the
registry write. -/
theorem installOfficial_registry_on_failure (name : String) (env : OffEnv)
    (goos home : String) (reg : Registry)
    (h : (installOfficial name env goos home reg).1 ≠ .ok) :
    (installOfficial name env goos home reg).2.registry = reg := by
  obtain ⟨cOk, cOut, sOk, sOut, dirEx, des, mf, bOk, bOut⟩ := env
  unfold installOfficial at h ⊢
  by_cases hc : cOk = true
  · rw [if_pos hc] at h ⊢
    by_cases hsp : sOk = true
    · rw [if_pos hsp] at h ⊢
      by_cases hd : dirEx = true
      · rw [if_pos hd] at h ⊢
        cases hver : latestVersion des with
        | error e => rfl
        | ok version =>
          rw [hver] at h
          dsimp only at h ⊢
          cases hman : readManifest mf with
          | error e => rfl
          | ok m =>
            rw [hman] at h
            dsimp only at h ⊢
            exact build_registry_on_failure _ _ _ _ _ _ _ _ _ h
      · rw [if_neg hd] at h ⊢
    · rw [if_neg hsp] at h ⊢
  · rw [if_neg hc] at h ⊢

/-- C7: whichever way `Install` fails — clone or sparse-checkout
failure, missing module subtree, no version directories, manifest
error, or build failure, on either the official or the external path —
the registry is exactly as before: the registry write is the last
action and is reached only after a successful build. -/
theorem install_failure_leaves_registry_unchanged (arg : String)
    (offEnv : OffEnv) (extEnv : ExtEnv) (goos home : String) (reg : Registry)
    (h : (Install arg offEnv extEnv goos home reg).1 ≠ .ok) :
    (Install arg offEnv extEnv goos home reg).2.registry = reg := by
  unfold Install at h ⊢
  by_cases hx : isExternalRepo arg = true
  · rw [if_pos hx] at h ⊢
    exact installExternal_registry_on_failure _ _ _ _ _ h
  · rw [if_neg hx] at h ⊢
    exact installOfficial_registry_on_failure _ _ _ _ _ h

def failOffEnv : OffEnv :=
  { cloneOk := false, cloneOut := "network down", sparseOk := true,
    sparseOut := "", moduleDirExists := true, dirEntries := [],
    manifestFile := .absent, buildOk := true, buildOut := "" }

/-- Witness for C7: a failed clone of an official module leaves the
empty registry empty. -/
theorem install_failure_witness :
    (Install "ip_locator" failOffEnv declineEnv "linux" "/home/u"
      ([] : Registry)).2.registry = ([] : Registry) :=
  install_failure_leaves_registry_unchanged "ip_locator" failOffEnv declineEnv
    "linux" "/home/u" ([] : Registry) (by decide)

theorem lexLe_refl (a : List Char) : lexLe a a = true := by
  induction a with
  | nil => rfl
  | cons x xs ih => simp [lexLe, ih]

theorem lexLe_total (a b : List Char) : lexLe a b = true ∨ lexLe b a = true := by
  induction a generalizing b with
  | nil => left; rfl
  | cons x xs ih =>
    cases b with
    | nil => right; rfl
    | cons y ys =>
      by_cases h1 : x.toNat < y.toNat
      · left; simp [lexLe, h1]
      · by_cases h2 : y.toNat < x.toNat
        · right; simp [lexLe, h2]
        · rcases ih ys with h | h
          · left; simp [lexLe, h1, h2, h]
          · right; simp [lexLe, h1, h2, h]

theorem lexLe_trans (a : List Char) : ∀ b c, lexLe a b = true →
    lexLe b c = true → lexLe a c = true := by
  induction a with
  | nil => intro b c _ _; rfl
  | cons x xs ih =>
    intro b c h1 h2
    cases b with
    | nil => simp [lexLe] at h1
    | cons y ys =>
      cases c with
      | nil => simp [lexLe] at h2
      | cons z zs =>
        simp only [lexLe] at h1 h2 ⊢
        split_ifs at h1 h2 ⊢ <;>
          first
          | rfl
          | omega
          | exact ih ys zs h1 h2

theorem strLe_refl (a : String) : strLe a a = true := lexLe_refl a.data

theorem strLe_total (a b : String) : strLe a b = true ∨ strLe b a = true :=
  lexLe_total a.data b.data

theorem strLe_trans {a b c : String} (h1 : strLe a b = true)
    (h2 : strLe b c = true) : strLe a c = true :=
  lexLe_trans a.data b.data c.data h1 h2

/-- Filename order on directory entries. -/
abbrev entLe (a b : DirEntry) : Prop := strLe a.name b.name = true

theorem mem_insertEntry (e x : DirEntry) (l : List DirEntry) :
    x ∈ insertEntry e l ↔ x = e ∨ x ∈ l := by
  induction l with
  | nil => simp [insertEntry]
  | cons f fs ih =>
    simp only [insertEntry]
    by_cases h : strLe e.name f.name = true
    · simp only [if_pos h, List.mem_cons]
    · simp only [if_neg h, List.mem_cons, ih]
      tauto

theorem pairwise_insertEntry (e : DirEntry) (l : List DirEntry)
    (h : l.Pairwise entLe) : (insertEntry e l).Pairwise entLe := by
  induction l with
  | nil => simp [insertEntry, entLe]
  | cons f fs ih =>
    rcases List.pairwise_cons.mp h with ⟨hf, hfs⟩
    by_cases hle : strLe e.name f.name = true
    · simp only [insertEntry, if_pos hle]
      refine List.pairwise_cons.mpr ⟨?_, h⟩
      intro x hx
      rcases List.mem_cons.mp hx with rfl | hxf
      · exact hle
      · exact strLe_trans hle (hf x hxf)
    · simp only [insertEntry, if_neg hle]
      refine List.pairwise_cons.mpr ⟨?_, ih hfs⟩
      intro x hx
      rcases (mem_insertEntry e x fs).mp hx with rfl | hxf
      · rcases strLe_total x.name f.name with h1 | h1
        · exact absurd h1 hle
        · exact h1
      · exact hf x hxf

theorem pairwise_osReadDir (entries : List DirEntry) :
    (osReadDir entries).Pairwise entLe := by
  induction entries with
  | nil => simp [osReadDir]
  | cons e rest ih => exact pairwise_insertEntry e _ ih

theorem mem_osReadDir (x : DirEntry) (entries : List DirEntry) :
    x ∈ osReadDir entries ↔ x ∈ entries := by
  induction entries with
  | nil => simp [osReadDir]
  | cons e rest ih =>
    show x ∈ insertEntry e (osReadDir rest) ↔ _
    rw [mem_insertEntry, ih]
    simp

theorem sorted_getLast_max (l : List String)
    (h : l.Pairwise (fun a b => strLe a b = true)) (x : String) (hx : x ∈ l)
    (hne : l ≠ []) : strLe x (l.getLast hne) = true := by
  induction l with
  | nil => cases hx
  | cons a rest ih =>
    rcases List.pairwise_cons.mp h with ⟨ha, hrest⟩
    cases rest with
    | nil =>
      simp only [List.mem_singleton] at hx
      subst hx
      exact strLe_refl x
    | cons b bs =>
      rw [List.getLast_cons (by simp)]
      rcases List.mem_cons.mp hx with rfl | hx'
      · exact ha _ (List.getLast_mem (by simp))
      · exact ih hrest hx' (by simp)

/-- C8: `installer.latestVersion` over a module directory: with no
subdirectories it fails (the no-versions error); otherwise it returns
the name of a subdirectory (non-directory entries ignored) that is
lexicographically greatest among all subdirectory names — i.e. the
lexicographically-last name in `os.ReadDir`'s sorted listing. -/
theorem latestVersion_lex_last (entries : List DirEntry) :
    (entries.filter (·.isDir) = [] → latestVersion entries = .error ()) ∧
    (entries.filter (·.isDir) ≠ [] → ∃ v, latestVersion entries = .ok v) ∧
    (∀ v, latestVersion entries = .ok v →
      (∃ e ∈ entries, e.isDir = true ∧ e.name = v) ∧
      (∀ e ∈ entries, e.isDir = true → strLe e.name v = true)) := by
  have hnil : ((osReadDir entries).filter (·.isDir) = []) ↔
      (entries.filter (·.isDir) = []) := by
    rw [List.filter_eq_nil_iff, List.filter_eq_nil_iff]
    constructor <;> intro h a ha
    · exact h a ((mem_osReadDir a entries).mpr ha)
    · exact h a ((mem_osReadDir a entries).mp ha)
  refine ⟨?_, ?_, ?_⟩
  · intro h
    have hd : (osReadDir entries).filter (·.isDir) = [] := hnil.mpr h
    unfold latestVersion
    rw [hd]
    rfl
  · intro h
    have hd : (osReadDir entries).filter (·.isDir) ≠ [] :=
      fun hc => h (hnil.mp hc)
    have hv : (((osReadDir entries).filter (·.isDir)).map (·.name)) ≠ [] := by
      simpa [List.map_eq_nil_iff] using hd
    refine ⟨(((osReadDir entries).filter (·.isDir)).map (·.name)).getLast hv, ?_⟩
    unfold latestVersion
    rw [List.getLast?_eq_getLast _ hv]
  · intro v hv
    unfold latestVersion at hv
    cases hg : (((osReadDir entries).filter (·.isDir)).map (·.name)).getLast? with
    | none => rw [hg] at hv; exact absurd hv (by simp)
    | some w =>
      rw [hg] at hv
      dsimp only at hv
      injection hv with hwv
      have hne : (((osReadDir entries).filter (·.isDir)).map (·.name)) ≠ [] := by
        intro hc; rw [hc] at hg; cases hg
      have hvl : v =
          (((osReadDir entries).filter (·.isDir)).map (·.name)).getLast hne := by
        have hx := List.getLast?_eq_getLast _ hne
        rw [hg] at hx
        injection hx with hgl
        rw [← hwv]
        exact hgl
      constructor
      · have hvmem : v ∈ ((osReadDir entries).filter (·.isDir)).map (·.name) := by
          rw [hvl]; exact List.getLast_mem hne
        rcases List.mem_map.mp hvmem with ⟨e, he, hev⟩
        rcases List.mem_filter.mp he with ⟨hmem, hdir⟩
        exact ⟨e, (mem_osReadDir e entries).mp hmem, hdir, hev⟩
      · intro e he hdir
        have hpw : (((osReadDir entries).filter (·.isDir)).map (·.name)).Pairwise
            (fun a b => strLe a b = true) := by
          rw [List.pairwise_map]
          exact (pairwise_osReadDir entries).filter _
        have hemem : e.name ∈ ((osReadDir entries).filter (·.isDir)).map (·.name) :=
          List.mem_map.mpr
            ⟨e, List.mem_filter.mpr ⟨(mem_osReadDir e entries).mpr he, hdir⟩, rfl⟩
        rw [hvl]
        exact sorted_getLast_max _ hpw _ hemem hne

def versionEntries : List DirEntry :=
  [⟨"0.9.0", true⟩, ⟨"0.10.0", true⟩, ⟨"README.md", false⟩]

/-- Witness for C8: among `0.9.0`, `0.10.0` and a stray file,
`latestVersion` picks `0.9.0` — the lexicographically-last directory
name (the documented heuristic, not semantic-version order). -/
theorem latestVersion_witness :
    (∃ e ∈ versionEntries, e.isDir = true ∧ e.name = "0.9.0") ∧
    (∀ e ∈ versionEntries, e.isDir = true → strLe e.name "0.9.0" = true) :=
  (latestVersion_lex_last versionEntries).2.2 "0.9.0" (by rfl)

/-- Go map assignment followed by lookup of the same key returns the
assigned entry. -/
theorem regLookup_regInsert_self (name : String) (e : RegistryEntry)
    (reg : Registry) : regLookup name (regInsert name e reg) = some e := by
  induction reg with
  | nil => simp [regInsert, regLookup, List.lookup]
  | cons p rest ih =>
    obtain ⟨n, e'⟩ := p
    by_cases h : n = name
    · simp [regInsert, h, regLookup, List.lookup]
    · have hbe : (name == n) = false := beq_eq_false_iff_ne.mpr (Ne.symm h)
      simp only [regInsert, if_neg h, regLookup, List.lookup, hbe]
      exact ih

def ipManifest : Manifest :=
  { name := "ip_locator", version := "0.1.0", description := "IP geolocation",
    author := "ernest", official := true, verified := true,
    entityTypes := ["ip"], repo := "" }

/-- C9 (amended): on every platform other than Windows, a successful
build registers the module under `name` with
`BinPath = filepath.Join(BinDir(), name)`, which is exactly the binary
path a subsequent run uses to invoke a step of that name (the run joins
the module-binary directory with the step name).  On Windows the claim
fails: the recorded path carries a `.exe` suffix the run-time join
lacks (see the counterexample). -/
theorem registered_binpath_matches_run_invocation (name version : String)
    (m : Manifest) (official : Bool) (goos home buildOut : String)
    (reg : Registry) (hgoos : goos ≠ "windows") :
    ∃ e, regLookup name
        (build name version m official goos home true buildOut
          reg).2.registry = some e ∧
      e.binPath = goJoin [BinDirOf home, name] ∧
      (∀ s : Step, s.name = name → ∀ input runDir,
        (runModule (goJoin [BinDirOf home, s.name]) input s.config runDir
          (goJoin [runDir, s.name])).binPath = e.binPath) := by
  unfold build
  rw [if_neg hgoos]
  refine ⟨_, regLookup_regInsert_self name _ reg, rfl, ?_⟩
  intro s hs input runDir
  rw [hs]
  rfl

/-- Witness for C9 (amended): a linux build of `ip_locator` records the
same path the run command would join. -/
theorem registered_binpath_witness :
    ∃ e, regLookup "ip_locator"
        (build "ip_locator" "0.1.0" ipManifest true "linux" "/home/u" true ""
          ([] : Registry)).2.registry = some e ∧
      e.binPath = goJoin [BinDirOf "/home/u", "ip_locator"] ∧
      (∀ s : Step, s.name = "ip_locator" → ∀ input runDir,
        (runModule (goJoin [BinDirOf "/home/u", s.name]) input s.config runDir
          (goJoin [runDir, s.name])).binPath = e.binPath) :=
  registered_binpath_matches_run_invocation "ip_locator" "0.1.0" ipManifest
    true "linux" "/home/u" "" ([] : Registry) (by decide)

/-- Counterexample for C9 as stated: with `runtime.GOOS = "windows"`,
the registry entry records `.../bin/ip_locator.exe` while a run joins
the bin directory with the bare step name `ip_locator`, a different
string. -/
theorem registered_binpath_windows_counterexample :
    ∃ e, regLookup "ip_locator"
        (build "ip_locator" "0.1.0" ipManifest true "windows" "/home/u" true ""
          ([] : Registry)).2.registry = some e ∧
      e.binPath ≠ goJoin [BinDirOf "/home/u", "ip_locator"] := by
  refine ⟨_, rfl, ?_⟩
  decide

def fsEscape : Fs := fun path =>
  if path = "/tmp/run/a/output.json" then
    .index [("x", ("../../../etc/passwd", "application/json"))]
  else .absent

def isUnder (dir path : String) : Bool :=
  path == dir || (dir ++ "/").data.isPrefixOf path.data

/-- C10: the resolver applies no validation or confinement to the
declared artifact path: for every declared path `p` the result is the
cleaned join of the run directory, the producing step's name and `p`;
and for the concrete index declaring `../../../etc/passwd` the resolved
path is `/etc/passwd`, outside both the producing step's directory and
the run directory. -/
theorem resolver_applies_no_path_confinement :
    (∀ (fs : Fs) (runDir A X p t : String)
      (arts : List (String × String × String)),
      A ≠ "" → X ≠ "" →
      fs (goJoin [runDir, A, "output.json"]) = .index arts →
      arts.lookup X = some (p, t) →
      resolveInput fs runDir (.ref A X) = .ok (goJoin [runDir, A, p])) ∧
    (resolveInput fsEscape "/tmp/run" (.ref "a" "x") = .ok "/etc/passwd" ∧
      isUnder "/tmp/run/a" "/etc/passwd" = false ∧
      isUnder "/tmp/run" "/etc/passwd" = false) := by
  constructor
  · intro fs runDir A X p t arts hA hX hidx hlook
    simp [resolveInput, hA, hX, hidx, hlook]
  · exact ⟨by rfl, by decide, by decide⟩

/-- Witness for C10: the universal clause applied at the escaping
index. -/
theorem resolver_no_confinement_witness :
    resolveInput fsEscape "/tmp/run" (.ref "a" "x") =
      .ok (goJoin ["/tmp/run", "a", "../../../etc/passwd"]) :=
  resolver_applies_no_path_confinement.1 fsEscape "/tmp/run" "a" "x"
    "../../../etc/passwd" "application/json"
    [("x", ("../../../etc/passwd", "application/json"))]
    (by decide) (by decide) (by rfl) (by rfl)

end Osintrace
